import Mathlib

/-
Verification development for the logwindow bounded log sink (src/main.cc).

The program keeps a bounded in-memory window of the most recent input lines
(class LineBuffer), feeds it from a line framer over stdin
(PosixInputReader::processChunk / emitLine / readLoop), and persists it with a
debounced writer thread (class Writer).  Bytes of the stream are modelled as
Char, byte strings as List Char, and the on-disk destination file as an
Option (List Char) (none = the file does not exist).  Each stateful C++ class
becomes a structure with explicit state passing; I/O failures of the flush
path are driven by an explicit oracle (IOFail) saying which step fails.
-/

namespace LogWindow

/-! ## Bounded line store (class LineBuffer, src/main.cc lines 128-157) -/

/-- State of class LineBuffer: the retained lines oldest-first (each stored
with its trailing separator, as in lines_), and the running byte total
totalBytes_. -/
structure LineBuffer where
  lines : List (List Char)
  totalBytes : Nat
  deriving DecidableEq, Repr

/-- Initial LineBuffer: no lines, zero bytes. -/
def emptyBuffer : LineBuffer := ⟨[], 0⟩

/-- LineBuffer::appendLine: push line + separator at the back and add
line.size() + 1 to totalBytes_. -/
def LineBuffer.appendLine (buf : LineBuffer) (line : List Char) : LineBuffer :=
  ⟨buf.lines ++ [line ++ ['\n']], buf.totalBytes + (line.length + 1)⟩

/-- Loop body of LineBuffer::trimToMax: while totalBytes_ > maxSize and lines
remain, pop the front line and subtract its stored size. -/
def trimToMaxAux (maxSize : Nat) : List (List Char) → Nat → List (List Char) × Nat
  | [], tb => ([], tb)
  | l :: rest, tb =>
    if maxSize < tb then trimToMaxAux maxSize rest (tb - l.length)
    else (l :: rest, tb)

/-- LineBuffer::trimToMax. -/
def LineBuffer.trimToMax (buf : LineBuffer) (maxSize : Nat) : LineBuffer :=
  ⟨(trimToMaxAux maxSize buf.lines buf.totalBytes).1,
   (trimToMaxAux maxSize buf.lines buf.totalBytes).2⟩

/-- LineBuffer::assemble: concatenation of the stored lines, oldest first.
Read-only in the source (const member, writes only to its out-parameter). -/
def LineBuffer.assemble (buf : LineBuffer) : List Char :=
  buf.lines.flatten

/-- Sum of the stored sizes of a list of stored lines (each already carries
its separator byte). -/
def sumSizes (lines : List (List Char)) : Nat :=
  (lines.map List.length).sum

/-- Well-formedness of a LineBuffer: totalBytes_ is exactly the sum of the
stored line sizes.  This is the accounting invariant of the store. -/
def LineBuffer.wf (buf : LineBuffer) : Prop :=
  buf.totalBytes = sumSizes buf.lines

instance (buf : LineBuffer) : Decidable buf.wf := by
  unfold LineBuffer.wf; infer_instance

/-! ## File system and I/O model for the Writer -/

/-- Observable file-system state touched by the Writer: the destination
file's content (none = absent) and whether the in-place fstream handle is
open (fileStream_ non-null and open). -/
structure FileSys where
  logContent : Option (List Char)
  handleOpen : Bool
  deriving DecidableEq, Repr

/-- Oracle describing which I/O step of a flush fails, mirroring the failure
points of Writer::flushInPlace / Writer::flushAtomic (open, write, resize,
rename). -/
structure IOFail where
  openFail : Bool
  writeFail : Bool
  resizeFail : Bool
  renameFail : Bool
  deriving DecidableEq, Repr

/-- All I/O steps succeed. -/
def ioOk : IOFail := ⟨false, false, false, false⟩

/-- Writer state: the owned LineBuffer, the dirty_ and shuttingDown_ flags,
and the file-system side. -/
structure WriterState where
  buffer : LineBuffer
  dirty : Bool
  shuttingDown : Bool
  fs : FileSys
  deriving DecidableEq, Repr

/-- Writer::openFile: in atomic mode it returns at once (no file opened); in
in-place mode a successful open with std::ios::trunc truncates or creates the
destination, leaving it empty; a failed open leaves no handle.  (The
intermediate create-then-reopen retry of the source only matters when the
first open fails for a missing file; its net observable effect on success is
the same truncated-empty file.) -/
def openFile (atomicWrites canOpen : Bool) (fs : FileSys) : FileSys :=
  if atomicWrites then fs
  else if canOpen then ⟨some [], true⟩
  else ⟨fs.logContent, false⟩

/-- Writer::Writer: records the configuration and calls openFile before any
line is read and before any flush; the buffer starts empty and clean. -/
def mkWriter (atomicWrites canOpen : Bool) (fs : FileSys) : WriterState :=
  ⟨emptyBuffer, false, false, openFile atomicWrites canOpen fs⟩

/-- Writer::flushInPlace: reopen the handle if needed (truncating on
success), give up if that fails, then overwrite from offset 0 and truncate
the file to the content's exact size.  A failed write closes the handle and
leaves the on-disk bytes unspecified (not further modelled, no claim reads
them); a failed resize leaves the overwritten prefix plus the old tail. -/
def flushInPlace (f : IOFail) (content : List Char) (fs : FileSys) : FileSys :=
  let opened : Option FileSys :=
    if fs.handleOpen then some fs
    else if f.openFail then none
    else some (openFile false true fs)
  match opened with
  | none => fs
  | some fs1 =>
    if f.writeFail then ⟨fs1.logContent, false⟩
    else if f.resizeFail then
      ⟨some (content ++ (fs1.logContent.getD []).drop content.length), fs1.handleOpen⟩
    else ⟨some content, fs1.handleOpen⟩

/-- Writer::flushAtomic (POSIX branch): write the content to a sibling temp
file and rename it onto the destination; on any failure the destination is
untouched (the temp file is removed). -/
def flushAtomic (f : IOFail) (content : List Char) (fs : FileSys) : FileSys :=
  if f.openFail then fs
  else if f.writeFail then fs
  else if f.renameFail then fs
  else ⟨some content, fs.handleOpen⟩

/-- Writer::flushLocked: assemble the buffer, run the configured write
strategy, then unconditionally clear dirty_ and stamp lastFlushTime_ (the
timestamp is not modelled).  Note the clearing of dirty_ is NOT guarded by
the success of the I/O step, exactly as in the source. -/
def flushLocked (atomicWrites : Bool) (f : IOFail) (s : WriterState) : WriterState :=
  let content := s.buffer.assemble
  let fs' := if atomicWrites then flushAtomic f content s.fs
             else flushInPlace f content s.fs
  ⟨s.buffer, false, s.shuttingDown, fs'⟩

/-- Writer::appendLine: append, trim to the configured budget, set dirty_
(the condition-variable notify has no state effect). -/
def writerAppendLine (maxSize : Nat) (s : WriterState) (line : List Char) : WriterState :=
  ⟨(s.buffer.appendLine line).trimToMax maxSize, true, s.shuttingDown, s.fs⟩

/-- Writer::shutdown: set shuttingDown_ (and notify). -/
def shutdownSignal (s : WriterState) : WriterState :=
  ⟨s.buffer, s.dirty, true, s.fs⟩

/-! ## Writer thread loop (Writer::writerThread, src/main.cc lines 182-209)

The loop is driven by wake-ups of the condition variable.  One LoopTick
describes what happened around one wake-up: which lines the ingestion thread
appended during the wait, whether shutdown() was called, and (in debounced
mode) whether the wait timed out or the interval had elapsed. -/

structure LoopTick where
  appends : List (List Char)
  sigShutdown : Bool
  timedOut : Bool
  intervalElapsed : Bool
  io : IOFail
  deriving Repr

/-- Flush decision of one writerThread loop iteration, applied to the state
as observed after the wake-up: in immediate mode flush when dirty_ is set,
in debounced mode flush when dirty_ is set and the wait timed out or the
interval has elapsed since the last flush. -/
def writerTickFlush (atomicWrites immediate : Bool) (t : LoopTick)
    (s2 : WriterState) : WriterState × Nat :=
  if immediate then
    if s2.dirty then (flushLocked atomicWrites t.io s2, 1) else (s2, 0)
  else if s2.dirty && (t.timedOut || t.intervalElapsed) then
    (flushLocked atomicWrites t.io s2, 1)
  else (s2, 0)

/-- One iteration of the writerThread loop body: first the events that
happened around the wait (appends by the ingestion thread, a possible
shutdown() call), then the flush decision. -/
def writerTick (atomicWrites immediate : Bool) (maxSize : Nat)
    (s : WriterState) (t : LoopTick) : WriterState × Nat :=
  writerTickFlush atomicWrites immediate t
    (if t.sigShutdown then shutdownSignal (t.appends.foldl (writerAppendLine maxSize) s)
     else t.appends.foldl (writerAppendLine maxSize) s)

/-- Epilogue of Writer::writerThread after the loop exits: one final flush
if and only if dirty_ is set. -/
def writerEpilogue (atomicWrites : Bool) (f : IOFail) (s : WriterState) :
    WriterState × Nat :=
  if s.dirty then (flushLocked atomicWrites f s, 1) else (s, 0)

/-- Writer::writerThread over a finite schedule of wake-ups: the loop guard
checks shuttingDown_ before consuming a wake-up; once it is set the epilogue
runs and the thread terminates.  If the schedule runs out first the thread is
still blocked waiting (no epilogue).  The Nat counts flushes performed. -/
def writerThreadRun (atomicWrites immediate : Bool) (maxSize : Nat)
    (finalIo : IOFail) : List LoopTick → WriterState → WriterState × Nat
  | [], s =>
    if s.shuttingDown then writerEpilogue atomicWrites finalIo s else (s, 0)
  | t :: rest, s =>
    if s.shuttingDown then writerEpilogue atomicWrites finalIo s
    else
      let p := writerTick atomicWrites immediate maxSize s t
      let q := writerThreadRun atomicWrites immediate maxSize finalIo rest p.1
      (q.1, p.2 + q.2)

/-! ## Input framer (PosixInputReader, src/main.cc lines 413-534) -/

/-- Framer state: the partial line being accumulated (currentLine_), the
overlong-line discard flag (droppingLine_), and the lines forwarded to
Writer::appendLine so far, in order. -/
structure FramerState where
  currentLine : List Char
  droppingLine : Bool
  emitted : List (List Char)
  deriving DecidableEq, Repr

/-- CRLF normalization step of PosixInputReader::emitLine: pop a single
trailing carriage return if present (the source condition, not empty and
back is a carriage return, is exactly getLast? = some CR). -/
def crlfNormalize (l : List Char) : List Char :=
  if l.getLast? = some '\r' then l.dropLast else l

/-- PosixInputReader::emitLine: normalize CRLF, then drop the line if its
stored size (content + separator) would exceed maxSize, else forward it. -/
def emitLine (maxSize : Nat) (s : FramerState) : FramerState :=
  let norm := crlfNormalize s.currentLine
  if maxSize < norm.length + 1 then s
  else ⟨s.currentLine, s.droppingLine, s.emitted ++ [norm]⟩

/-- Per-byte body of PosixInputReader::processChunk: a newline either ends
the discard of an overlong line or emits the current line; other bytes are
skipped while discarding, start a discard once currentLine_ has reached
maxSize - 1 bytes, and are accumulated otherwise. -/
def processChar (maxSize : Nat) (s : FramerState) (c : Char) : FramerState :=
  if c = '\n' then
    if s.droppingLine then ⟨[], false, s.emitted⟩
    else
      let s1 := emitLine maxSize s
      ⟨[], s1.droppingLine, s1.emitted⟩
  else if s.droppingLine then s
  else if maxSize - 1 ≤ s.currentLine.length then ⟨[], true, s.emitted⟩
  else ⟨s.currentLine ++ [c], s.droppingLine, s.emitted⟩

/-- PosixInputReader::processChunk over a chunk of bytes. -/
def processChunk (maxSize : Nat) (s : FramerState) (data : List Char) : FramerState :=
  data.foldl (processChar maxSize) s

/-- End-of-input handling of PosixInputReader::readLoop: any non-empty
accumulated partial line is emitted as a final line. -/
def finalizeInput (maxSize : Nat) (s : FramerState) : FramerState :=
  if s.currentLine = [] then s else emitLine maxSize s

/-- Framer start state. -/
def initFramer : FramerState := ⟨[], false, []⟩

/-- Whole-stream run of the framer: process every byte, then the end-of-input
step of readLoop. -/
def runFramer (maxSize : Nat) (input : List Char) : FramerState :=
  finalizeInput maxSize (processChunk maxSize initFramer input)

/-- Admission rule actually implemented for one raw segment (the bytes
between two separators): forwarded, CRLF-normalized, iff the raw length plus
the separator fits the budget. -/
def admitSeg (maxSize : Nat) (seg : List Char) : Option (List Char) :=
  if seg.length + 1 ≤ maxSize then some (crlfNormalize seg) else none

/-! ## Operation sequences over the store, for the invariant claims -/

/-- An operation on the bounded line store. -/
inductive BufOp where
  | app (line : List Char)
  | trim (maxSize : Nat)

/-- Apply one operation. -/
def applyOp (buf : LineBuffer) : BufOp → LineBuffer
  | .app l => buf.appendLine l
  | .trim m => buf.trimToMax m

/-- Apply a sequence of operations, first operation first. -/
def applyOps (ops : List BufOp) (buf : LineBuffer) : LineBuffer :=
  ops.foldl applyOp buf

/-- Stored forms of all lines appended by a sequence of operations, in
order. -/
def storedLines (ops : List BufOp) : List (List Char) :=
  ops.filterMap (fun op => match op with
    | .app l => some (l ++ ['\n'])
    | .trim _ => none)

/-! ## Helper lemmas about the store -/

theorem sumSizes_nil : sumSizes [] = 0 := rfl

theorem sumSizes_cons (l : List Char) (rest : List (List Char)) :
    sumSizes (l :: rest) = l.length + sumSizes rest := by
  simp [sumSizes]

theorem sumSizes_append (xs ys : List (List Char)) :
    sumSizes (xs ++ ys) = sumSizes xs + sumSizes ys := by
  simp [sumSizes]

theorem wf_emptyBuffer : emptyBuffer.wf := rfl

theorem wf_appendLine {buf : LineBuffer} (line : List Char) (h : buf.wf) :
    (buf.appendLine line).wf := by
  unfold LineBuffer.wf LineBuffer.appendLine at *
  simp [sumSizes_append, sumSizes_cons, sumSizes_nil, h]

theorem trimToMaxAux_wf (m : Nat) (lines : List (List Char)) :
    ∀ tb, tb = sumSizes lines →
      (trimToMaxAux m lines tb).2 = sumSizes (trimToMaxAux m lines tb).1 := by
  induction lines with
  | nil =>
    intro tb h
    simpa [trimToMaxAux, sumSizes_nil] using h
  | cons l rest ih =>
    intro tb h
    rw [sumSizes_cons] at h
    unfold trimToMaxAux
    split
    · exact ih (tb - l.length) (by omega)
    · simpa [sumSizes_cons] using h

theorem trimToMaxAux_le (m : Nat) (lines : List (List Char)) :
    ∀ tb, tb = sumSizes lines → (trimToMaxAux m lines tb).2 ≤ m := by
  induction lines with
  | nil =>
    intro tb h
    rw [sumSizes_nil] at h
    simp [trimToMaxAux, h]
  | cons l rest ih =>
    intro tb h
    rw [sumSizes_cons] at h
    unfold trimToMaxAux
    split
    · exact ih (tb - l.length) (by omega)
    · next hc => simpa using Nat.le_of_not_lt hc

theorem wf_trimToMax {buf : LineBuffer} (m : Nat) (h : buf.wf) :
    (buf.trimToMax m).wf :=
  trimToMaxAux_wf m buf.lines buf.totalBytes h

theorem trimToMax_totalBytes_le {buf : LineBuffer} (m : Nat) (h : buf.wf) :
    (buf.trimToMax m).totalBytes ≤ m :=
  trimToMaxAux_le m buf.lines buf.totalBytes h

theorem wf_applyOps (ops : List BufOp) :
    ∀ buf : LineBuffer, buf.wf → (applyOps ops buf).wf := by
  induction ops with
  | nil => intro buf h; simpa [applyOps] using h
  | cons op rest ih =>
    intro buf h
    have hstep : (applyOp buf op).wf := by
      cases op with
      | app l => exact wf_appendLine l h
      | trim m => exact wf_trimToMax m h
    simpa [applyOps, List.foldl_cons] using ih (applyOp buf op) hstep

theorem isSuffix_append_right {xs ys zs : List (List Char)}
    (h : List.IsSuffix xs ys) : List.IsSuffix (xs ++ zs) (ys ++ zs) := by
  obtain ⟨t, rfl⟩ := h
  exact ⟨t, by simp⟩

theorem trimToMaxAux_suffix (m : Nat) (lines : List (List Char)) :
    ∀ tb, List.IsSuffix (trimToMaxAux m lines tb).1 lines := by
  induction lines with
  | nil => intro tb; simp [trimToMaxAux]
  | cons l rest ih =>
    intro tb
    unfold trimToMaxAux
    split
    · exact (ih (tb - l.length)).trans (List.suffix_cons l rest)
    · exact List.suffix_refl _

theorem trimToMax_suffix (buf : LineBuffer) (m : Nat) :
    List.IsSuffix (buf.trimToMax m).lines buf.lines :=
  trimToMaxAux_suffix m buf.lines buf.totalBytes

theorem applyOps_suffix (ops : List BufOp) :
    ∀ (buf : LineBuffer) (acc : List (List Char)), List.IsSuffix buf.lines acc →
      List.IsSuffix (applyOps ops buf).lines (acc ++ storedLines ops) := by
  induction ops with
  | nil => intro buf acc h; simpa [applyOps, storedLines] using h
  | cons op rest ih =>
    intro buf acc h
    cases op with
    | app l =>
      have h2 : List.IsSuffix (buf.appendLine l).lines (acc ++ [l ++ ['\n']]) :=
        isSuffix_append_right h
      have h3 := ih (buf.appendLine l) (acc ++ [l ++ ['\n']]) h2
      simpa [applyOps, storedLines, List.foldl_cons, applyOp, List.append_assoc] using h3
    | trim m =>
      have h2 : List.IsSuffix (buf.trimToMax m).lines acc :=
        (trimToMax_suffix buf m).trans h
      have h3 := ih (buf.trimToMax m) acc h2
      simpa [applyOps, storedLines, List.foldl_cons, applyOp] using h3

theorem trimToMaxAux_getLast? (m : Nat) (last : List Char) (hlen : last.length ≤ m) :
    ∀ (lines : List (List Char)) (tb : Nat), tb = sumSizes lines →
      lines.getLast? = some last →
      (trimToMaxAux m lines tb).1.getLast? = some last := by
  intro lines
  induction lines with
  | nil => intro tb _ h; simp at h
  | cons l rest ih =>
    intro tb hwf hl
    unfold trimToMaxAux
    split
    · next hc =>
      cases rest with
      | nil =>
        simp at hl
        rw [sumSizes_cons, sumSizes_nil] at hwf
        subst hl
        omega
      | cons r rs =>
        apply ih
        · rw [sumSizes_cons] at hwf; omega
        · simpa using hl
    · simpa using hl

theorem writerAppendLine_keeps_last (maxSize : Nat) (s : WriterState) (line : List Char)
    (hwf : s.buffer.wf) (hfit : line.length + 1 ≤ maxSize) :
    (writerAppendLine maxSize s line).buffer.lines.getLast? = some (line ++ ['\n']) := by
  have hwf2 : (s.buffer.appendLine line).totalBytes
      = sumSizes (s.buffer.appendLine line).lines :=
    wf_appendLine line hwf
  have hlast : (s.buffer.appendLine line).lines.getLast? = some (line ++ ['\n']) := by
    simp [LineBuffer.appendLine]
  have h := trimToMaxAux_getLast? maxSize (line ++ ['\n']) (by simpa using hfit)
    (s.buffer.appendLine line).lines (s.buffer.appendLine line).totalBytes hwf2 hlast
  simpa [writerAppendLine, LineBuffer.trimToMax] using h

/-! ## Claim theorems: store invariants and flush behavior -/

/-- C2: over every sequence of appendLine and trimToMax operations starting
from the empty store, totalBytes equals the exact sum of the stored line
sizes (content length + 1 separator byte each), and after any
Writer::appendLine (append followed by trim, maxSize > 0) on a well-formed
state, totalBytes is at most maxSize. -/
theorem c2_totalBytes_invariant (ops : List BufOp) (maxSize : Nat) (s : WriterState)
    (line : List Char) (hwf : s.buffer.wf) (_hpos : 0 < maxSize) :
    (applyOps ops emptyBuffer).totalBytes = sumSizes (applyOps ops emptyBuffer).lines
    ∧ (writerAppendLine maxSize s line).buffer.totalBytes ≤ maxSize := by
  constructor
  · exact wf_applyOps ops emptyBuffer wf_emptyBuffer
  · exact trimToMaxAux_le maxSize (s.buffer.appendLine line).lines
      (s.buffer.appendLine line).totalBytes (wf_appendLine line hwf)

/-- Witness for C2 at a concrete operation sequence and append. -/
theorem c2_totalBytes_invariant_witness :
    (applyOps [BufOp.app ['a'], BufOp.trim 2] emptyBuffer).totalBytes
      = sumSizes (applyOps [BufOp.app ['a'], BufOp.trim 2] emptyBuffer).lines
    ∧ (writerAppendLine 3 ⟨⟨[['a', '\n']], 2⟩, false, false, ⟨none, false⟩⟩
        ['b', 'b']).buffer.totalBytes ≤ 3 :=
  c2_totalBytes_invariant [BufOp.app ['a'], BufOp.trim 2] 3
    ⟨⟨[['a', '\n']], 2⟩, false, false, ⟨none, false⟩⟩ ['b', 'b']
    (by decide) (by decide)

/-- C5: the store retained after any sequence of appends and trims is an
in-order contiguous suffix of the appended lines (eviction removes only from
the oldest end), and a single trimToMax yields a suffix of the prior lines. -/
theorem c5_eviction_suffix (ops : List BufOp) (maxSize : Nat) (buf : LineBuffer) :
    List.IsSuffix (applyOps ops emptyBuffer).lines (storedLines ops)
    ∧ List.IsSuffix (buf.trimToMax maxSize).lines buf.lines := by
  constructor
  · simpa using applyOps_suffix ops emptyBuffer [] (by simp [emptyBuffer])
  · exact trimToMax_suffix buf maxSize

/-- C1 evaluation at a failing flush: an in-place flush whose open step
fails (no handle and openFail) skips the file write, yet flushLocked
returns with the dirty flag cleared, not set. -/
theorem c1_failed_flush_clears_dirty :
    (flushLocked false ⟨true, false, false, false⟩
        ⟨⟨[['a', '\n']], 2⟩, true, false, ⟨some ['z'], false⟩⟩).dirty = false
    ∧ (flushLocked false ⟨true, false, false, false⟩
        ⟨⟨[['a', '\n']], 2⟩, true, false, ⟨some ['z'], false⟩⟩).fs
      = ⟨some ['z'], false⟩ := by
  decide

/-- C9: a successful flush never mutates the store, so two flushes in a row
with no intervening appends assemble identical content and write identical
file content both times. -/
theorem c9_flush_idempotent (atomicWrites : Bool) (s : WriterState) :
    (flushLocked atomicWrites ioOk s).buffer = s.buffer
    ∧ (flushLocked atomicWrites ioOk (flushLocked atomicWrites ioOk s)).buffer = s.buffer
    ∧ (flushLocked atomicWrites ioOk s).buffer.assemble = s.buffer.assemble
    ∧ (flushLocked atomicWrites ioOk s).fs.logContent = some s.buffer.assemble
    ∧ (flushLocked atomicWrites ioOk (flushLocked atomicWrites ioOk s)).fs.logContent
      = (flushLocked atomicWrites ioOk s).fs.logContent := by
  obtain ⟨buf, d, sd, lc, ho⟩ := s
  cases atomicWrites <;> cases ho <;>
    simp [flushLocked, flushInPlace, flushAtomic, ioOk, openFile]

/-- C10: constructing the Writer in the default in-place mode opens the
destination with truncation, erasing any pre-existing content to length zero
while the buffer is still empty and clean (no line read, no flush yet); in
atomic mode construction opens and modifies nothing. -/
theorem c10_construction_truncates (fs0 : FileSys) (canOpen : Bool) :
    (mkWriter false true fs0).fs = ⟨some [], true⟩
    ∧ (mkWriter false true fs0).buffer = emptyBuffer
    ∧ (mkWriter false true fs0).dirty = false
    ∧ (mkWriter true canOpen fs0).fs = fs0
    ∧ (mkWriter true canOpen fs0).buffer = emptyBuffer := by
  simp [mkWriter, openFile]

/-! ## Helper lemmas about the framer -/

theorem crlfNormalize_length_le (l : List Char) :
    (crlfNormalize l).length ≤ l.length := by
  unfold crlfNormalize
  split
  · rw [List.length_dropLast]
    omega
  · exact Nat.le_refl _

theorem crlfNormalize_eq_self {l : List Char} (h : l.getLast? ≠ some '\r') :
    crlfNormalize l = l := by
  unfold crlfNormalize
  rw [if_neg h]

theorem crlfNormalize_of_last_cr {l : List Char} (h : l.getLast? = some '\r') :
    crlfNormalize l = l.dropLast := by
  unfold crlfNormalize
  rw [if_pos h]

theorem emitLine_droppingLine (m : Nat) (s : FramerState) :
    (emitLine m s).droppingLine = s.droppingLine := by
  simp only [emitLine]
  split <;> rfl

theorem processChar_nl (m : Nat) (s : FramerState) :
    (processChar m s '\n').currentLine = []
    ∧ (processChar m s '\n').droppingLine = false := by
  unfold processChar
  rw [if_pos rfl]
  split
  · exact ⟨rfl, rfl⟩
  · next h =>
    refine ⟨rfl, ?_⟩
    show (emitLine m s).droppingLine = false
    rw [emitLine_droppingLine]
    simpa using h

theorem framer_eta (s : FramerState) (h1 : s.currentLine = [])
    (h2 : s.droppingLine = false) : s = ⟨[], false, s.emitted⟩ := by
  cases s
  simp_all

theorem foldl_accum (m : Nat) :
    ∀ (c p : List Char) (E : List (List Char)), (∀ x ∈ c, x ≠ '\n') →
      (p ++ c).length < m →
      c.foldl (processChar m) ⟨p, false, E⟩ = ⟨p ++ c, false, E⟩ := by
  intro c
  induction c with
  | nil => intro p E _ _; simp
  | cons x c' ih =>
    intro p E hnl hlen
    have hx : x ≠ '\n' := hnl x (by simp)
    rw [List.length_append, List.length_cons] at hlen
    have hstep : processChar m ⟨p, false, E⟩ x = ⟨p ++ [x], false, E⟩ := by
      have hp : ¬ (m - 1 ≤ p.length) := by omega
      simp [processChar, hx, hp]
    rw [List.foldl_cons, hstep]
    have h2 := ih (p ++ [x]) E (fun y hy => hnl y (by simp [hy]))
      (by rw [List.length_append, List.length_append]; simp; omega)
    rw [h2]
    simp

theorem foldl_dropping (m : Nat) :
    ∀ (c : List Char) (E : List (List Char)), (∀ x ∈ c, x ≠ '\n') →
      c.foldl (processChar m) ⟨[], true, E⟩ = ⟨[], true, E⟩ := by
  intro c
  induction c with
  | nil => intro E _; rfl
  | cons x c' ih =>
    intro E hnl
    have hx : x ≠ '\n' := hnl x (by simp)
    have hstep : processChar m ⟨[], true, E⟩ x = ⟨[], true, E⟩ := by
      simp [processChar, hx]
    rw [List.foldl_cons, hstep]
    exact ih E (fun y hy => hnl y (by simp [hy]))

theorem foldl_overflow (m : Nat) :
    ∀ (c p : List Char) (E : List (List Char)), (∀ x ∈ c, x ≠ '\n') →
      p.length < m → m ≤ (p ++ c).length →
      c.foldl (processChar m) ⟨p, false, E⟩ = ⟨[], true, E⟩ := by
  intro c
  induction c with
  | nil =>
    intro p E _ h1 h2
    simp at h2
    omega
  | cons x c' ih =>
    intro p E hnl h1 h2
    have hx : x ≠ '\n' := hnl x (by simp)
    rw [List.length_append, List.length_cons] at h2
    by_cases hp : m - 1 ≤ p.length
    · have hstep : processChar m ⟨p, false, E⟩ x = ⟨[], true, E⟩ := by
        simp [processChar, hx, hp]
      rw [List.foldl_cons, hstep]
      exact foldl_dropping m c' E (fun y hy => hnl y (by simp [hy]))
    · have hstep : processChar m ⟨p, false, E⟩ x = ⟨p ++ [x], false, E⟩ := by
        simp [processChar, hx, hp]
      rw [List.foldl_cons, hstep]
      exact ih (p ++ [x]) E (fun y hy => hnl y (by simp [hy]))
        (by simp; omega)
        (by rw [List.length_append, List.length_append]; simp; omega)

theorem runFramer_single (m : Nat) (hm : 1 ≤ m) (c : List Char)
    (hc : ∀ x ∈ c, x ≠ '\n') :
    (runFramer m (c ++ ['\n'])).emitted
      = if c.length + 1 ≤ m then [crlfNormalize c] else [] := by
  unfold runFramer processChunk initFramer
  rw [List.foldl_append]
  by_cases hlen : c.length + 1 ≤ m
  · rw [show (⟨[], false, []⟩ : FramerState) = ⟨([] : List Char), false, []⟩ from rfl,
      foldl_accum m c [] [] hc (by simp; omega)]
    have hnorm : ¬ (m < (crlfNormalize c).length + 1) := by
      have := crlfNormalize_length_le c
      omega
    simp [List.foldl_cons, processChar, emitLine, hnorm, finalizeInput, hlen]
  · rw [foldl_overflow m c [] [] hc (by simp only [List.length_nil]; omega)
      (by simp only [List.nil_append]; omega)]
    simp [List.foldl_cons, processChar, finalizeInput, hlen]

theorem run_tail_segment (m : Nat) (hm : 1 ≤ m) (tail : List Char)
    (E : List (List Char)) (ht : ∀ x ∈ tail, x ≠ '\n') (hne : tail ≠ []) :
    (finalizeInput m (List.foldl (processChar m) ⟨[], false, E⟩ tail)).emitted
      = E ++ (admitSeg m tail).toList := by
  by_cases hlen : tail.length + 1 ≤ m
  · rw [foldl_accum m tail [] E ht (by simp; omega)]
    have hnorm : ¬ (m < (crlfNormalize tail).length + 1) := by
      have := crlfNormalize_length_le tail
      omega
    simp [finalizeInput, emitLine, hne, hnorm, admitSeg, hlen]
  · rw [foldl_overflow m tail [] E ht (by simp only [List.length_nil]; omega)
      (by simp only [List.nil_append]; omega)]
    simp [finalizeInput, admitSeg, hlen]

/-! ## Claim theorems about the framer -/

/-- C4 (amended): the too-long test of processChunk applies to the raw,
pre-normalization line length: a line is forwarded to append if and only if
its raw length plus one separator byte fits maxSize, and the forwarded line
is the CRLF-normalized content. -/
theorem c4_raw_length_admission (m : Nat) (c : List Char) (hm : 1 ≤ m)
    (hc : ∀ x ∈ c, x ≠ '\n') :
    (runFramer m (c ++ ['\n'])).emitted
      = if c.length + 1 ≤ m then [crlfNormalize c] else [] :=
  runFramer_single m hm c hc

/-- Witness for C4 at a concrete admitted line. -/
theorem c4_raw_length_admission_witness :
    (runFramer 5 (['a', 'b'] ++ ['\n'])).emitted
      = if (['a', 'b'] : List Char).length + 1 ≤ 5 then [crlfNormalize ['a', 'b']] else [] :=
  c4_raw_length_admission 5 ['a', 'b'] (by decide) (by decide)

/-- C4 counterexample to the claim as stated: with maxSize 5 the input line
abcd CR LF has post-normalization length 4, so 4 + 1 <= 5 should be
forwarded by the claim, yet the framer drops it because the pre-normalization
length 5 plus 1 exceeds maxSize. -/
theorem c4_counterexample :
    (runFramer 5 ['a', 'b', 'c', 'd', '\r', '\n']).emitted = []
    ∧ (crlfNormalize ['a', 'b', 'c', 'd', '\r']).length + 1 ≤ 5 := by
  decide

/-- C3 (amended): a line whose raw content fits in maxSize - 1 bytes is
admitted — in particular a line not ending in a carriage return whose stored
size (content + separator) is exactly maxSize is forwarded verbatim and,
after Writer::appendLine on a well-formed store, retained as the newest
stored line — while a line whose stored size is maxSize + 1 or more is
dropped in its entirety, nothing of it forwarded to appendLine. -/
theorem c3_admission_boundary (m : Nat) (c : List Char) (s : WriterState)
    (hm : 1 ≤ m) (hc : ∀ x ∈ c, x ≠ '\n') :
    (c.getLast? ≠ some '\r' → c.length + 1 = m →
      (runFramer m (c ++ ['\n'])).emitted = [c]
      ∧ (s.buffer.wf →
        (writerAppendLine m s c).buffer.lines.getLast? = some (c ++ ['\n'])))
    ∧ (m + 1 ≤ (crlfNormalize c).length + 1 →
      (runFramer m (c ++ ['\n'])).emitted = []) := by
  constructor
  · intro hcr hlen
    constructor
    · rw [runFramer_single m hm c hc, if_pos (by omega), crlfNormalize_eq_self hcr]
    · intro hwf
      exact writerAppendLine_keeps_last m s c hwf (by omega)
  · intro hbig
    have hle := crlfNormalize_length_le c
    rw [runFramer_single m hm c hc, if_neg (by omega)]

/-- Witness for C3 at a stored size exactly maxSize (admitted and retained)
and at a stored size maxSize + 2 (dropped entirely). -/
theorem c3_admission_boundary_witness :
    ((runFramer 4 (['a', 'b', 'c'] ++ ['\n'])).emitted = [['a', 'b', 'c']]
      ∧ (writerAppendLine 4 ⟨emptyBuffer, false, false, ⟨none, false⟩⟩
          ['a', 'b', 'c']).buffer.lines.getLast? = some (['a', 'b', 'c'] ++ ['\n']))
    ∧ (runFramer 2 (['x', 'y', 'z'] ++ ['\n'])).emitted = [] :=
  ⟨⟨((c3_admission_boundary 4 ['a', 'b', 'c'] ⟨emptyBuffer, false, false, ⟨none, false⟩⟩
        (by decide) (by decide)).1 (by decide) (by decide)).1,
    ((c3_admission_boundary 4 ['a', 'b', 'c'] ⟨emptyBuffer, false, false, ⟨none, false⟩⟩
        (by decide) (by decide)).1 (by decide) (by decide)).2 (by decide)⟩,
   (c3_admission_boundary 2 ['x', 'y', 'z'] ⟨emptyBuffer, false, false, ⟨none, false⟩⟩
      (by decide) (by decide)).2 (by decide)⟩

/-- C3 counterexample to the claim as stated: with maxSize 4 the input line
abc CR LF would be stored as abc plus separator, exactly 4 bytes = maxSize,
yet the framer drops it (the length cap fires on the raw length 4 before the
carriage return is stripped). -/
theorem c3_counterexample :
    (runFramer 4 ['a', 'b', 'c', '\r', '\n']).emitted = []
    ∧ (crlfNormalize ['a', 'b', 'c', '\r']).length + 1 = 4 := by
  decide

/-- C6: a carriage return immediately before the terminating newline is
stripped before the line is forwarded for storage, and a line not ending in
a carriage return — in particular one with a lone interior carriage return —
is forwarded unchanged. -/
theorem c6_crlf_normalization (m : Nat) (c : List Char) (hm : 1 ≤ m)
    (hc : ∀ x ∈ c, x ≠ '\n') (hlen : c.length < m) :
    (runFramer m (c ++ ['\n'])).emitted = [crlfNormalize c]
    ∧ (c.getLast? = some '\r' → crlfNormalize c = c.dropLast)
    ∧ (c.getLast? ≠ some '\r' → crlfNormalize c = c) := by
  refine ⟨?_, fun h => crlfNormalize_of_last_cr h, fun h => crlfNormalize_eq_self h⟩
  rw [runFramer_single m hm c hc, if_pos (by omega)]

/-- Witness for C6: the trailing CR of ab CR is stripped, the interior CR of
a CR b is retained. -/
theorem c6_crlf_normalization_witness :
    ((runFramer 9 (['a', 'b', '\r'] ++ ['\n'])).emitted = [crlfNormalize ['a', 'b', '\r']]
      ∧ crlfNormalize ['a', 'b', '\r'] = (['a', 'b', '\r'] : List Char).dropLast)
    ∧ (runFramer 9 (['a', '\r', 'b'] ++ ['\n'])).emitted = [crlfNormalize ['a', '\r', 'b']]
    ∧ crlfNormalize ['a', '\r', 'b'] = ['a', '\r', 'b'] :=
  ⟨⟨(c6_crlf_normalization 9 ['a', 'b', '\r'] (by decide) (by decide) (by decide)).1,
    (c6_crlf_normalization 9 ['a', 'b', '\r'] (by decide) (by decide) (by decide)).2.1
      (by decide)⟩,
   (c6_crlf_normalization 9 ['a', '\r', 'b'] (by decide) (by decide) (by decide)).1,
   (c6_crlf_normalization 9 ['a', '\r', 'b'] (by decide) (by decide) (by decide)).2.2
      (by decide)⟩

/-- C7: at end of input with no final terminator, a non-empty accumulated
partial line is emitted as a final line, subject to the same normalization
and size rules as terminated lines; the same holds when the whole input has
no terminator at all. -/
theorem c7_final_partial_line (m : Nat) (pre tail : List Char) (hm : 1 ≤ m)
    (ht : ∀ x ∈ tail, x ≠ '\n') (hne : tail ≠ []) :
    (runFramer m (pre ++ '\n' :: tail)).emitted
      = (runFramer m (pre ++ ['\n'])).emitted ++ (admitSeg m tail).toList
    ∧ (runFramer m tail).emitted = (admitSeg m tail).toList := by
  obtain ⟨E, hE⟩ : ∃ E, List.foldl (processChar m) initFramer (pre ++ ['\n'])
      = ⟨[], false, E⟩ := by
    rw [List.foldl_append]
    simp only [List.foldl_cons, List.foldl_nil]
    exact ⟨_, framer_eta _ (processChar_nl m _).1 (processChar_nl m _).2⟩
  constructor
  · have hsplit : pre ++ '\n' :: tail = (pre ++ ['\n']) ++ tail := by simp
    unfold runFramer processChunk
    rw [hsplit, List.foldl_append, hE,
      show (finalizeInput m ⟨[], false, E⟩ : FramerState) = ⟨[], false, E⟩ by
        simp [finalizeInput]]
    exact run_tail_segment m hm tail E ht hne
  · unfold runFramer processChunk
    have h := run_tail_segment m hm tail [] ht hne
    simpa [initFramer] using h

/-- Witness for C7 at a concrete unterminated input. -/
theorem c7_final_partial_line_witness :
    (runFramer 9 (['a'] ++ '\n' :: ['b', 'c'])).emitted
      = (runFramer 9 (['a'] ++ ['\n'])).emitted ++ (admitSeg 9 ['b', 'c']).toList
    ∧ (runFramer 9 ['b', 'c']).emitted = (admitSeg 9 ['b', 'c']).toList :=
  c7_final_partial_line 9 ['a'] ['b', 'c'] (by decide) (by decide) (by decide)

/-! ## Helper lemmas about the writer thread -/

theorem flushLocked_shuttingDown (a : Bool) (f : IOFail) (s : WriterState) :
    (flushLocked a f s).shuttingDown = s.shuttingDown := rfl

theorem foldl_writerAppendLine_shuttingDown (maxSize : Nat) :
    ∀ (ls : List (List Char)) (s : WriterState),
      (ls.foldl (writerAppendLine maxSize) s).shuttingDown = s.shuttingDown := by
  intro ls
  induction ls with
  | nil => intro s; rfl
  | cons l rest ih =>
    intro s
    rw [List.foldl_cons, ih]
    rfl

theorem writerTickFlush_shuttingDown (a i : Bool) (t : LoopTick) (u : WriterState)
    (hu : u.shuttingDown = true) :
    (writerTickFlush a i t u).1.shuttingDown = true := by
  unfold writerTickFlush
  split
  · split
    · rw [flushLocked_shuttingDown]; exact hu
    · exact hu
  · split
    · rw [flushLocked_shuttingDown]; exact hu
    · exact hu

theorem writerTick_shuttingDown (atomicWrites immediate : Bool) (maxSize : Nat)
    (s : WriterState) (t : LoopTick) (h : s.shuttingDown = true) :
    (writerTick atomicWrites immediate maxSize s t).1.shuttingDown = true := by
  have h1 : (t.appends.foldl (writerAppendLine maxSize) s).shuttingDown = true := by
    rw [foldl_writerAppendLine_shuttingDown]
    exact h
  unfold writerTick
  apply writerTickFlush_shuttingDown
  split
  · rfl
  · exact h1

theorem writerThreadRun_of_shuttingDown (a i : Bool) (m : Nat) (fio : IOFail)
    (ticks : List LoopTick) (s : WriterState) (h : s.shuttingDown = true) :
    writerThreadRun a i m fio ticks s = writerEpilogue a fio s := by
  cases ticks <;> simp [writerThreadRun, h]

theorem writerEpilogue_count (a : Bool) (f : IOFail) (s : WriterState) :
    (writerEpilogue a f s).2 = if s.dirty then 1 else 0 := by
  unfold writerEpilogue
  split <;> simp_all

theorem writerEpilogue_dirty (a : Bool) (f : IOFail) (s : WriterState) :
    (writerEpilogue a f s).1.dirty = false := by
  unfold writerEpilogue
  split
  · rfl
  · next h => simpa using h

theorem writerEpilogue_shuttingDown (a : Bool) (f : IOFail) (s : WriterState) :
    (writerEpilogue a f s).1.shuttingDown = s.shuttingDown := by
  unfold writerEpilogue
  split <;> rfl

/-! ## Claim theorem about shutdown -/

/-- C8: with shuttingDown observed by the flush actor, the loop performs no
further iterations and runs the epilogue: exactly one more flush if and only
if the dirty flag is set; the shutdown flag is never reset by any further
tick; and from the resulting terminal state any further schedule performs
zero flushes. -/
theorem c8_shutdown_terminal (atomicWrites immediate : Bool) (maxSize : Nat)
    (finalIo : IOFail) (ticks ticks2 : List LoopTick) (t : LoopTick)
    (s : WriterState) (h : s.shuttingDown = true) :
    writerThreadRun atomicWrites immediate maxSize finalIo ticks s
      = writerEpilogue atomicWrites finalIo s
    ∧ (writerThreadRun atomicWrites immediate maxSize finalIo ticks s).2
      = (if s.dirty then 1 else 0)
    ∧ (writerTick atomicWrites immediate maxSize s t).1.shuttingDown = true
    ∧ (writerThreadRun atomicWrites immediate maxSize finalIo ticks2
        (writerThreadRun atomicWrites immediate maxSize finalIo ticks s).1).2 = 0 := by
  have h1 := writerThreadRun_of_shuttingDown atomicWrites immediate maxSize finalIo ticks s h
  refine ⟨h1, ?_, writerTick_shuttingDown atomicWrites immediate maxSize s t h, ?_⟩
  · rw [h1, writerEpilogue_count]
  · have hsd : (writerThreadRun atomicWrites immediate maxSize finalIo ticks s).1.shuttingDown
        = true := by
      rw [h1, writerEpilogue_shuttingDown]
      exact h
    have hdy : (writerThreadRun atomicWrites immediate maxSize finalIo ticks s).1.dirty
        = false := by
      rw [h1]
      exact writerEpilogue_dirty atomicWrites finalIo s
    rw [writerThreadRun_of_shuttingDown atomicWrites immediate maxSize finalIo ticks2 _ hsd,
      writerEpilogue_count, hdy]
    simp

/-- Concrete shutdown-observed writer state used by the C8 witness. -/
def shutdownWitnessState : WriterState :=
  ⟨⟨[['a', '\n']], 2⟩, true, true, ⟨some [], true⟩⟩

/-- Concrete idle debounce tick used by the C8 witness. -/
def idleTick : LoopTick := ⟨[], false, true, false, ioOk⟩

/-- Witness for C8 at a concrete dirty, shutting-down state. -/
theorem c8_shutdown_terminal_witness :
    writerThreadRun false false 5 ioOk [] shutdownWitnessState
      = writerEpilogue false ioOk shutdownWitnessState
    ∧ (writerThreadRun false false 5 ioOk [] shutdownWitnessState).2
      = (if shutdownWitnessState.dirty then 1 else 0)
    ∧ (writerTick false false 5 shutdownWitnessState idleTick).1.shuttingDown = true
    ∧ (writerThreadRun false false 5 ioOk [idleTick]
        (writerThreadRun false false 5 ioOk [] shutdownWitnessState).1).2 = 0 :=
  c8_shutdown_terminal false false 5 ioOk [] [idleTick] idleTick shutdownWitnessState rfl

end LogWindow
